import Mathlib

/-!
Verification development for the email-ingest pipeline in
`sandbox/vercel-email-ingest/api/pull-and-parse.ts`.

The embedding models the core extraction-normalization-and-persistence
pipeline: the loosely-typed AI extraction (`RawAiDraft` over a JavaScript
value model), the normalization helpers (`text`, `maybeText`, `asQty`,
`normalizeCatalog`), the draft transformation (`transformAiToDraft`), the
brand resolution (`resolveBrand`), and the persistence sequence
(`saveDraftToSupabase`, modelled as `persist` over an explicit datastore
state with per-operation success/failure oracles).  Row identifiers are
modelled as abstract `Nat` values freshly allocated by the store; in the
real system they are UUID strings, which are always truthy, so the
JavaScript truthiness test on a returned id is modelled as `Option`
presence.  Number coercion is modelled exactly over `Int` (double rounding
above 2^53 is idealized away).
-/

set_option autoImplicit false

namespace Ingest

/-- A JavaScript value, restricted to the shapes the pipeline can observe:
`undefined`, `null`, booleans, integral numbers and strings. -/
inductive JSVal where
  | undef
  | null
  | bool (b : Bool)
  | num (n : Int)
  | str (s : String)
  deriving DecidableEq

/-- The set of characters matched by the JavaScript `\s` regex class and
removed by `String.prototype.trim`. -/
def isJsWhitespace (c : Char) : Bool :=
  c.toNat = 0x9 || c.toNat = 0xA || c.toNat = 0xB || c.toNat = 0xC ||
  c.toNat = 0xD || c.toNat = 0x20 || c.toNat = 0xA0 || c.toNat = 0x1680 ||
  (0x2000 ≤ c.toNat && c.toNat ≤ 0x200A) || c.toNat = 0x2028 ||
  c.toNat = 0x2029 || c.toNat = 0x202F || c.toNat = 0x205F ||
  c.toNat = 0x3000 || c.toNat = 0xFEFF

/-- JavaScript `String.prototype.trim`. -/
def jsTrim (s : String) : String :=
  String.mk (((s.data.dropWhile isJsWhitespace).reverse.dropWhile isJsWhitespace).reverse)

/-- JavaScript `String.prototype.toUpperCase`, restricted to the simple
per-character case mapping. -/
def jsToUpper (s : String) : String :=
  String.mk (s.data.map Char.toUpper)

/-- JavaScript `String(v)` primitive coercion. -/
def jsToString : JSVal → String
  | JSVal.undef => "undefined"
  | JSVal.null => "null"
  | JSVal.bool true => "true"
  | JSVal.bool false => "false"
  | JSVal.num n => toString n
  | JSVal.str s => s

/-- JavaScript `v ?? ""` (nullish coalescing against the empty string). -/
def coalesceEmpty : JSVal → JSVal
  | JSVal.undef => JSVal.str ""
  | JSVal.null => JSVal.str ""
  | v => v

/-- JavaScript truthiness `Boolean(v)`. -/
def jsTruthy : JSVal → Bool
  | JSVal.undef => false
  | JSVal.null => false
  | JSVal.bool b => b
  | JSVal.num n => decide (n ≠ 0)
  | JSVal.str s => decide (s ≠ "")

/-- `text` from `pull-and-parse.ts` (lines 28-31): coerce to string via
`String(input ?? "")`, trim, and fall back when the result is empty. -/
def text (input : JSVal) (fallback : String := "") : String :=
  let v := jsTrim (jsToString (coalesceEmpty input))
  if v = "" then fallback else v

/-- `maybeText` from `pull-and-parse.ts` (lines 33-36). -/
def maybeText (input : JSVal) : Option String :=
  let v := jsTrim (jsToString (coalesceEmpty input))
  if v = "" then none else some v

/-- ASCII decimal digit, the only digits `Number.parseInt(_, 10)` accepts. -/
def isDigit10 (c : Char) : Bool :=
  48 ≤ c.toNat && c.toNat ≤ 57

/-- Numeric value of a list of decimal digit characters. -/
def digitsToNat (ds : List Char) : Nat :=
  ds.foldl (fun a c => a * 10 + (c.toNat - 48)) 0

/-- JavaScript `Number.parseInt(s, 10)`: skip leading whitespace, accept an
optional sign, read the longest prefix of decimal digits; `none` models NaN
(no digits at all).  The value is modelled exactly over `Int`. -/
def jsParseInt10 (s : String) : Option Int :=
  let cs := s.data.dropWhile isJsWhitespace
  let signed := cs.head? = some '-' ∨ cs.head? = some '+'
  let cs' := if signed then cs.tail else cs
  let ds := cs'.takeWhile isDigit10
  if ds.isEmpty then none
  else if cs.head? = some '-' then some (-(digitsToNat ds : Int))
  else some ((digitsToNat ds : Int))

/-- `asQty` from `pull-and-parse.ts` (lines 38-41): parse the coerced,
trimmed input in base 10 and keep only finite, strictly positive results. -/
def asQty (input : JSVal) : Option Int :=
  match jsParseInt10 (jsTrim (jsToString (coalesceEmpty input))) with
  | some n => if 0 < n then some n else none
  | none => none

/-- A whitespace, underscore or hyphen character: the class `[\s_-]` whose
runs `normalizeCatalog` deletes. -/
def isSep (c : Char) : Bool :=
  isJsWhitespace c || c = '_' || c = '-'

/-- `normalizeCatalog` from `pull-and-parse.ts` (lines 43-45): upper-case,
then apply the global regex replace `/[\s_-]+/g → ""`.  Replacing every
maximal separator run by the empty string deletes exactly the separator
characters, so the replace is the filter keeping non-separator
characters. -/
def normalizeCatalog (input : String) : String :=
  String.mk ((jsToUpper input).data.filter (fun c => !isSep c))

/-- Modelled from the spec wording for CatalogNormalizer: "upper-case, then
remove all runs of whitespace, underscore, and hyphen characters" — a
scanner that drops each maximal separator run at once.  The scanner recurses
on a fuel bound; one unit of fuel per consumed character suffices, since a
run of `k` separators is dropped in one step. -/
def dropSepRunsF : Nat → List Char → List Char
  | 0, _ => []
  | _ + 1, [] => []
  | fuel + 1, c :: cs =>
    if isSep c then dropSepRunsF fuel (cs.dropWhile isSep)
    else c :: dropSepRunsF fuel cs

/-- The spec-side reading of CatalogNormalizer: upper-case, then remove all
runs of separator characters. -/
def normalizeCatalogSpec (input : String) : String :=
  String.mk (dropSepRunsF (jsToUpper input).data.length (jsToUpper input).data)

/-- One element of `RawAiDraft.items` (lines 21-25): every field is an
unknown JavaScript value and may be absent (`undef`). -/
structure RawItem where
  brand : JSVal := JSVal.undef
  catalog_number : JSVal := JSVal.undef
  quantity : JSVal := JSVal.undef
  deriving DecidableEq

/-- The `customer` block of the AI response (lines 6-13). -/
structure RawCustomer where
  name : JSVal := JSVal.undef
  country : JSVal := JSVal.undef
  billing_address : JSVal := JSVal.undef
  contact_person : JSVal := JSVal.undef
  contact_phone : JSVal := JSVal.undef
  contact_email : JSVal := JSVal.undef
  deriving DecidableEq

/-- The `delivery` block of the AI response (lines 14-20). -/
structure RawDelivery where
  company_name : JSVal := JSVal.undef
  address : JSVal := JSVal.undef
  contact_person : JSVal := JSVal.undef
  phone : JSVal := JSVal.undef
  email : JSVal := JSVal.undef
  deriving DecidableEq

/-- `RawAiDraft` (lines 5-26): the unvalidated AI output.  `items := none`
models both an absent `items` field and a non-array value, which
`Array.isArray` rejects identically (line 177). -/
structure RawAiDraft where
  customer : Option RawCustomer := none
  delivery : Option RawDelivery := none
  items : Option (List RawItem) := none
  deriving DecidableEq

/-- A surviving draft line (lines 197-202). -/
structure DraftLine where
  brandInputUpper : String
  catalogUpper : String
  normalizedCatalog : String
  quantity : Int
  deriving DecidableEq

/-- The canonical draft produced by `transformAiToDraft` (lines 179-212). -/
structure Draft where
  customer_name : String
  customer_country : String
  billing_address : Option String
  contact_person : Option String
  contact_phone : Option String
  contact_email : Option String
  delivery_company_name : Option String
  delivery_address : Option String
  delivery_contact_person : Option String
  delivery_phone : Option String
  delivery_email : Option String
  lines : List DraftLine
  deriving DecidableEq

/-- The per-item body of the `items.map` in `transformAiToDraft`
(lines 192-203): compute coerced brand, catalog and quantity, drop the item
when any is empty/`null` (JavaScript string truthiness is non-emptiness),
otherwise build the line. -/
def lineOfItem (it : RawItem) : Option DraftLine :=
  let brand := text it.brand
  let catalog := text it.catalog_number
  match asQty it.quantity with
  | none => none
  | some qty =>
    if brand = "" ∨ catalog = "" then none
    else some
      { brandInputUpper := jsToUpper brand
        catalogUpper := jsToUpper catalog
        normalizedCatalog := normalizeCatalog catalog
        quantity := qty }

/-- `transformAiToDraft` (lines 174-213).  The `map` + `filter(Boolean)`
over items is the `filterMap` of `lineOfItem`. -/
def transformAiToDraft (ai : RawAiDraft) : Draft :=
  let customer := ai.customer.getD {}
  let delivery := ai.delivery.getD {}
  let items := ai.items.getD []
  { customer_name := text customer.name
    customer_country := text customer.country
    billing_address := maybeText customer.billing_address
    contact_person := maybeText customer.contact_person
    contact_phone := maybeText customer.contact_phone
    contact_email := maybeText customer.contact_email
    delivery_company_name := maybeText delivery.company_name
    delivery_address := maybeText delivery.address
    delivery_contact_person := maybeText delivery.contact_person
    delivery_phone := maybeText delivery.phone
    delivery_email := maybeText delivery.email
    lines := items.filterMap lineOfItem }

/-- The `data` field of the `brand_alias` point lookup in `resolveBrand`
(lines 216-221): the first row whose `alias` column equals the input, as a
`limit(1).maybeSingle()` query returns it.  A transport error leaves `data`
null, which the destructuring on line 216 cannot distinguish from "no
row". -/
def aliasData (tbl : List (String × String)) (aliasKey : String) : Option String :=
  (tbl.find? (fun p => p.1 == aliasKey)).map (fun p => p.2)

/-- The pure tail of `resolveBrand` (lines 222-223), applied to the `data`
the query produced: fall back to the input when no row (or an error), else
`text(data.standard_brand, brandInputUpper).toUpperCase()`. -/
def resolveBrand (data : Option String) (brandInputUpper : String) : String :=
  match data with
  | none => brandInputUpper
  | some sb => jsToUpper (text (JSVal.str sb) brandInputUpper)

/-- An `inquiries` row as inserted on lines 241-254. -/
structure InquiryRow where
  id : Nat
  userId : String
  status : String
  customerName : String
  customerCountry : String
  billingAddress : Option String
  contactPerson : Option String
  contactPhone : Option String
  contactEmail : Option String
  deriving DecidableEq

/-- An `inquiry_items` row as inserted on lines 270-281. -/
structure InquiryItemRow where
  id : Nat
  inquiryId : Nat
  userId : String
  brand : String
  catalogNumber : String
  normalizedCatalog : String
  quantity : Int
  deriving DecidableEq

/-- The `template_meta` block of a quotation (lines 301-307): absent draft
delivery fields become empty strings. -/
structure TemplateMeta where
  shipmentCompanyName : String
  shipmentAddress : String
  shipmentRecipient : String
  shipmentPhone : String
  shipmentEmail : String
  deriving DecidableEq

/-- A `quotations` row as inserted on lines 295-310. -/
structure QuotationRow where
  id : Nat
  inquiryId : Nat
  userId : String
  status : String
  templateMeta : TemplateMeta
  deriving DecidableEq

/-- A `quotation_items` row as inserted on lines 323-337. -/
structure QuotationItemRow where
  id : Nat
  quotationId : Nat
  inquiryItemId : Nat
  userId : String
  brand : String
  catalogNumber : String
  normalizedCatalog : String
  quantity : Int
  priceListId : Option Nat
  matchStatus : String
  brandInput : String
  brandStandard : String
  deriving DecidableEq

/-- A `price_list` row, read-only to the pipeline (lines 316-321). -/
structure PriceEntry where
  id : Nat
  brand : String
  normalizedCatalog : String
  deriving DecidableEq

/-- The datastore state: the four tables the pipeline writes, plus a fresh
identifier supply standing in for the database's id generation. -/
structure Store where
  nextId : Nat
  inquiries : List InquiryRow
  inquiryItems : List InquiryItemRow
  quotations : List QuotationRow
  quotationItems : List QuotationItemRow
  deriving DecidableEq

/-- The external environment of one `saveDraftToSupabase` run: the read-only
`brand_alias` and `price_list` tables, per-operation transport-failure
oracles for the two reads (whose errors the code swallows), and
per-operation success oracles for the four kinds of insert. -/
structure Env where
  aliasTbl : List (String × String)
  aliasFail : Nat → Bool
  priceList : List PriceEntry
  priceFail : Nat → Bool
  inquiryInsertOk : Bool
  itemInsertOk : Nat → Bool
  quotationInsertOk : Bool
  qitemInsertOk : Nat → Bool

/-- One element of the in-memory `inquiryItems` array (lines 259-266). -/
structure SavedItem where
  id : Nat
  brandInputUpper : String
  brandStandard : String
  catalogUpper : String
  normalizedCatalog : String
  quantity : Int
  deriving DecidableEq

def msgNoLines : String := "No valid lines to save."
def msgInquiryFailed : String := "Create inquiry failed"
def msgItemFailed : String := "Create inquiry item failed"
def msgQuotationFailed : String := "Create quotation failed"
def msgQItemFailed : String := "Create quotation item failed"

/-- The saved item produced for the line at position `i` when its insert
succeeds with fresh id `rid`: the brand is resolved first (line 269), with
a failed alias lookup leaving `data` null. -/
def mkSaved (env : Env) (i : Nat) (rid : Nat) (l : DraftLine) : SavedItem :=
  let data := if env.aliasFail i then none else aliasData env.aliasTbl l.brandInputUpper
  { id := rid
    brandInputUpper := l.brandInputUpper
    brandStandard := resolveBrand data l.brandInputUpper
    catalogUpper := l.catalogUpper
    normalizedCatalog := l.normalizedCatalog
    quantity := l.quantity }

/-- The `inquiry_items` row written for a saved item (lines 270-279). -/
def itemRowOf (inquiryId : Nat) (userId : String) (s : SavedItem) : InquiryItemRow :=
  { id := s.id
    inquiryId := inquiryId
    userId := userId
    brand := s.brandStandard
    catalogNumber := s.catalogUpper
    normalizedCatalog := s.normalizedCatalog
    quantity := s.quantity }

/-- The saved items an all-successful item loop produces, starting at line
position `i` with fresh ids from `rid`. -/
def savedSpec (env : Env) : List DraftLine → Nat → Nat → List SavedItem
  | [], _, _ => []
  | l :: rest, i, rid => mkSaved env i rid l :: savedSpec env rest (i + 1) (rid + 1)

/-- The item-insert loop of lines 268-293: for each line in order, resolve
the brand, then attempt the insert; a failed insert aborts at once, leaving
earlier rows committed. -/
def insertItems (env : Env) (userId : String) (inquiryId : Nat) :
    List DraftLine → Nat → Store → Store × Except String (List SavedItem)
  | [], _, st => (st, Except.ok [])
  | l :: rest, i, st =>
    if env.itemInsertOk i then
      let s := mkSaved env i st.nextId l
      let st' : Store :=
        { st with nextId := st.nextId + 1,
                  inquiryItems := st.inquiryItems ++ [itemRowOf inquiryId userId s] }
      match insertItems env userId inquiryId rest (i + 1) st' with
      | (st2, Except.ok items) => (st2, Except.ok (s :: items))
      | (st2, Except.error e) => (st2, Except.error e)
    else (st, Except.error msgItemFailed)

/-- The `data` of the `price_list` lookup (lines 316-321): an unlimited
`maybeSingle()` yields the row only when exactly one row matches; zero
matches, several matches (a `maybeSingle` error) and transport errors all
leave `data` null, and the code reads only `data`. -/
def priceHit (pl : List PriceEntry) (brand normCat : String) : Option Nat :=
  match pl.filter (fun e => e.brand == brand && e.normalizedCatalog == normCat) with
  | [e] => some e.id
  | _ => none

/-- The `quotation_items` row written for saved item `it` at position `i`
with fresh id `rid` (lines 315-337).  In the real system a present hit id is
a non-empty UUID string, always truthy, so `hit?.id ? "matched" :
"not_found"` is modelled as presence of the hit. -/
def mkQItemRow (env : Env) (userId : String) (quotationId : Nat) (i : Nat) (rid : Nat)
    (it : SavedItem) : QuotationItemRow :=
  let hit := if env.priceFail i then none
             else priceHit env.priceList it.brandStandard it.normalizedCatalog
  { id := rid
    quotationId := quotationId
    inquiryItemId := it.id
    userId := userId
    brand := it.brandStandard
    catalogNumber := it.catalogUpper
    normalizedCatalog := it.normalizedCatalog
    quantity := it.quantity
    priceListId := hit
    matchStatus := if hit.isSome then "matched" else "not_found"
    brandInput := it.brandInputUpper
    brandStandard := it.brandStandard }

/-- The quotation-item rows an all-successful final loop writes. -/
def qRowsSpec (env : Env) (userId : String) (quotationId : Nat) :
    List SavedItem → Nat → Nat → List QuotationItemRow
  | [], _, _ => []
  | it :: rest, i, rid =>
    mkQItemRow env userId quotationId i rid it :: qRowsSpec env userId quotationId rest (i + 1) (rid + 1)

/-- The quotation-item loop of lines 315-341: for each saved item in order,
look up the price list, then attempt the insert; a failure aborts with
earlier rows committed. -/
def insertQItems (env : Env) (userId : String) (quotationId : Nat) :
    List SavedItem → Nat → Store → Store × Except String Unit
  | [], _, st => (st, Except.ok ())
  | it :: rest, i, st =>
    if env.qitemInsertOk i then
      let st' : Store :=
        { st with nextId := st.nextId + 1,
                  quotationItems := st.quotationItems ++ [mkQItemRow env userId quotationId i st.nextId it] }
      insertQItems env userId quotationId rest (i + 1) st'
    else (st, Except.error msgQItemFailed)

/-- The `inquiries` row written on lines 241-254. -/
def inquiryRowOf (userId : String) (iid : Nat) (draft : Draft) : InquiryRow :=
  { id := iid
    userId := userId
    status := "draft"
    customerName := draft.customer_name
    customerCountry := draft.customer_country
    billingAddress := draft.billing_address
    contactPerson := draft.contact_person
    contactPhone := draft.contact_phone
    contactEmail := draft.contact_email }

/-- The `quotations` row written on lines 295-310. -/
def quotationRowOf (userId : String) (qid iid : Nat) (draft : Draft) : QuotationRow :=
  { id := qid
    inquiryId := iid
    userId := userId
    status := "draft"
    templateMeta :=
      { shipmentCompanyName := draft.delivery_company_name.getD ""
        shipmentAddress := draft.delivery_address.getD ""
        shipmentRecipient := draft.delivery_contact_person.getD ""
        shipmentPhone := draft.delivery_phone.getD ""
        shipmentEmail := draft.delivery_email.getD "" } }

/-- `saveDraftToSupabase` (lines 226-344) on the configured path (the
credential check of lines 227-232 precedes everything and is independent of
the draft): validate that lines are non-empty, insert the inquiry, the
inquiry items in order, the quotation, and the quotation items in order,
aborting at the first failed insert with all earlier writes committed. -/
def persist (env : Env) (userId : String) (draft : Draft) (st : Store) :
    Store × Except String (Nat × Nat) :=
  if draft.lines.isEmpty then (st, Except.error msgNoLines)
  else if env.inquiryInsertOk then
    let iid := st.nextId
    let st1 : Store :=
      { st with nextId := st.nextId + 1,
                inquiries := st.inquiries ++ [inquiryRowOf userId iid draft] }
    match insertItems env userId iid draft.lines 0 st1 with
    | (st2, Except.error e) => (st2, Except.error e)
    | (st2, Except.ok items) =>
      if env.quotationInsertOk then
        let qid := st2.nextId
        let st3 : Store :=
          { st2 with nextId := st2.nextId + 1,
                     quotations := st2.quotations ++ [quotationRowOf userId qid iid draft] }
        match insertQItems env userId qid items 0 st3 with
        | (st4, Except.error e) => (st4, Except.error e)
        | (st4, Except.ok _) => (st4, Except.ok (iid, qid))
      else (st2, Except.error msgQuotationFailed)
  else (st, Except.error msgInquiryFailed)

/-- The mail record `pullLatestEmail` hands to the handler (lines 103-111);
the mail source is an external collaborator, so the record is taken as
given. -/
structure Mail where
  uid : Nat
  messageId : String
  subject : String
  subjectNorm : String
  fromAddr : String
  bodyText : String
  deriving DecidableEq

/-- The `mail` block of the success response (lines 373-380). -/
structure MailSummary where
  uid : Nat
  messageId : String
  subject : String
  subjectNorm : String
  fromAddr : String
  textPreview : String
  deriving DecidableEq

def mailSummaryOf (m : Mail) : MailSummary :=
  { uid := m.uid
    messageId := m.messageId
    subject := m.subject
    subjectNorm := m.subjectNorm
    fromAddr := m.fromAddr
    textPreview := m.bodyText.take 800 }

/-- The success response body of the handler (lines 370-387). -/
structure RunResponse where
  save : Bool
  mail : MailSummary
  ai : RawAiDraft
  transformed : Draft
  saved : Option (Nat × Nat)
  deriving DecidableEq

/-- The handler core (lines 353-387) after the external mail pull and AI
extraction returned: read the save flag as `Boolean(body?.save)`, transform
the extraction, persist only when the flag is truthy, and answer with the
mail summary, the extraction, the draft and the saved ids (or null). -/
def runPipeline (env : Env) (userId : String) (mail : Mail) (ai : RawAiDraft)
    (saveVal : JSVal) (st : Store) : Store × Except String RunResponse :=
  let save := jsTruthy saveVal
  let draft := transformAiToDraft ai
  if save then
    match persist env userId draft st with
    | (st', Except.ok ids) =>
      (st', Except.ok
        { save := save, mail := mailSummaryOf mail, ai := ai,
          transformed := draft, saved := some ids })
    | (st', Except.error e) => (st', Except.error e)
  else
    (st, Except.ok
      { save := save, mail := mailSummaryOf mail, ai := ai,
        transformed := draft, saved := none })

/-! Concrete sample values used to exercise the theorems below. -/

def sampleLine1 : DraftLine :=
  { brandInputUpper := "ABCCO", catalogUpper := "XY-100", normalizedCatalog := "XY100", quantity := 5 }

def sampleLine2 : DraftLine :=
  { brandInputUpper := "ZED", catalogUpper := "Z-9", normalizedCatalog := "Z9", quantity := 2 }

def sampleLine3 : DraftLine :=
  { brandInputUpper := "QQQ", catalogUpper := "Q1", normalizedCatalog := "Q1", quantity := 1 }

def sampleDraft1 : Draft :=
  { customer_name := "Acme", customer_country := "", billing_address := none,
    contact_person := none, contact_phone := none, contact_email := none,
    delivery_company_name := none, delivery_address := none,
    delivery_contact_person := none, delivery_phone := none, delivery_email := none,
    lines := [sampleLine1] }

def sampleDraft3 : Draft :=
  { sampleDraft1 with lines := [sampleLine1, sampleLine2, sampleLine3] }

def sampleDraft0 : Draft :=
  { sampleDraft1 with lines := [] }

def sampleEnvOk : Env :=
  { aliasTbl := [("ABCCO", "ABC CORP")]
    aliasFail := fun _ => false
    priceList := [{ id := 77, brand := "ABC CORP", normalizedCatalog := "XY100" }]
    priceFail := fun _ => false
    inquiryInsertOk := true
    itemInsertOk := fun _ => true
    quotationInsertOk := true
    qitemInsertOk := fun _ => true }

def sampleEnvFailAt2 : Env :=
  { sampleEnvOk with itemInsertOk := fun i => decide (i ≠ 1) }

def sampleStore : Store :=
  { nextId := 1, inquiries := [], inquiryItems := [], quotations := [], quotationItems := [] }

def sampleAi : RawAiDraft :=
  { customer := some { name := JSVal.str "Acme" }
    delivery := none
    items := some
      [ { brand := JSVal.str "abc co", catalog_number := JSVal.str "xy-100", quantity := JSVal.str "5" } ] }

def sampleMail : Mail :=
  { uid := 3, messageId := "m1", subject := "Re: rfq", subjectNorm := "rfq",
    fromAddr := "aperson", bodyText := "please quote" }

/-! Helper lemmas. -/

theorem mk_ne_empty_of_ne_nil (l : List Char) (h : l ≠ []) : String.mk l ≠ "" := by
  intro hcon
  exact h (congrArg String.data hcon)

theorem data_ne_nil_of_ne_empty (s : String) (h : s ≠ "") : s.data ≠ [] := by
  intro hd
  apply h
  cases s with
  | mk l =>
    cases hd
    rfl

theorem jsToUpper_ne_empty (s : String) (h : s ≠ "") : jsToUpper s ≠ "" := by
  unfold jsToUpper
  apply mk_ne_empty_of_ne_nil
  simp [data_ne_nil_of_ne_empty s h]

theorem asQty_eq_some_iff (v : JSVal) (q : Int) :
    asQty v = some q ↔
      jsParseInt10 (jsTrim (jsToString (coalesceEmpty v))) = some q ∧ 0 < q := by
  unfold asQty
  cases h : jsParseInt10 (jsTrim (jsToString (coalesceEmpty v))) with
  | none => simp
  | some n =>
    by_cases h0 : 0 < n
    · simp only [if_pos h0, Option.some.injEq]
      constructor
      · rintro rfl
        exact ⟨rfl, h0⟩
      · rintro ⟨rfl, _⟩
        rfl
    · simp only [if_neg h0, Option.some.injEq]
      constructor
      · intro hcon
        simp at hcon
      · rintro ⟨rfl, hq0⟩
        exact absurd hq0 h0

theorem asQty_pos (v : JSVal) (q : Int) (h : asQty v = some q) : 0 < q :=
  ((asQty_eq_some_iff v q).mp h).2

theorem filter_dropWhile_sep (cs : List Char) :
    (cs.dropWhile isSep).filter (fun c => !isSep c) = cs.filter (fun c => !isSep c) := by
  induction cs with
  | nil => rfl
  | cons a t ih =>
    by_cases ha : isSep a
    · rw [List.dropWhile_cons_of_pos ha, ih, List.filter_cons]
      simp [ha]
    · rw [List.dropWhile_cons_of_neg ha]

theorem length_dropWhile_sep_le (l : List Char) :
    (l.dropWhile isSep).length ≤ l.length := by
  induction l with
  | nil => simp [List.dropWhile]
  | cons a t ih =>
    simp only [List.dropWhile]
    split
    · exact Nat.le_succ_of_le ih
    · exact Nat.le_refl _

theorem dropSepRunsF_eq_filter :
    ∀ (fuel : Nat) (l : List Char), l.length ≤ fuel →
      dropSepRunsF fuel l = l.filter (fun c => !isSep c) := by
  intro fuel
  induction fuel with
  | zero =>
    intro l hl
    have : l = [] := List.eq_nil_of_length_eq_zero (Nat.le_zero.mp hl)
    subst this
    rfl
  | succ n ih =>
    intro l hl
    cases l with
    | nil => rfl
    | cons c cs =>
      simp only [dropSepRunsF]
      simp only [List.length_cons] at hl
      by_cases hc : isSep c
      · rw [if_pos hc]
        have hlen : (cs.dropWhile isSep).length ≤ n :=
          Nat.le_trans (length_dropWhile_sep_le cs) (by omega)
        rw [ih _ hlen, filter_dropWhile_sep, List.filter_cons]
        simp [hc]
      · rw [if_neg hc]
        rw [ih cs (by omega), List.filter_cons]
        simp [hc]

/-! Claim theorems. -/

/-- C7: for every input string, `normalizeCatalog` returns the string
upper-cased with all runs of whitespace, underscore and hyphen characters
removed (the run-dropping spec reading agrees with the code); in particular
`normalizeCatalog "abc-123_45"`, `normalizeCatalog "ABC12345"` and
`"ABC12345"` are all equal. -/
theorem normalizeCatalog_spec_and_examples :
    (∀ s : String, normalizeCatalog s = normalizeCatalogSpec s) ∧
    normalizeCatalog "abc-123_45" = "ABC12345" ∧
    normalizeCatalog "ABC12345" = "ABC12345" ∧
    normalizeCatalog "abc-123_45" = normalizeCatalog "ABC12345" := by
  refine ⟨?_, by decide, by decide, by decide⟩
  intro s
  unfold normalizeCatalog normalizeCatalogSpec
  rw [dropSepRunsF_eq_filter _ _ (Nat.le_refl _)]

/-- C3: for every draft whose lines are empty, `persist` fails with the
validation error and performs zero datastore writes: the store afterwards is
exactly the store before. -/
theorem persist_empty_draft (env : Env) (userId : String) (draft : Draft) (st : Store)
    (h : draft.lines = []) :
    persist env userId draft st = (st, Except.error msgNoLines) := by
  unfold persist
  rw [h]
  rfl

theorem persist_empty_draft_witness :
    persist sampleEnvOk "u" sampleDraft0 sampleStore = (sampleStore, Except.error msgNoLines) :=
  persist_empty_draft sampleEnvOk "u" sampleDraft0 sampleStore rfl

/-- C10: whenever the caller's save flag is falsy (absence is `undef`, which
is falsy), the pipeline performs no datastore write for any environment —
the store is returned unchanged — and the response carries `none` for the
saved identifiers while still holding the mail summary, the extraction and
the draft. -/
theorem runPipeline_no_save (env : Env) (userId : String) (mail : Mail) (ai : RawAiDraft)
    (saveVal : JSVal) (st : Store) (h : jsTruthy saveVal = false) :
    runPipeline env userId mail ai saveVal st =
      (st, Except.ok
        { save := false, mail := mailSummaryOf mail, ai := ai,
          transformed := transformAiToDraft ai, saved := none }) := by
  unfold runPipeline
  rw [h]
  simp

theorem runPipeline_no_save_witness :
    runPipeline sampleEnvOk "u" sampleMail sampleAi JSVal.undef sampleStore =
      (sampleStore, Except.ok
        { save := false, mail := mailSummaryOf sampleMail, ai := sampleAi,
          transformed := transformAiToDraft sampleAi, saved := none }) :=
  runPipeline_no_save sampleEnvOk "u" sampleMail sampleAi JSVal.undef sampleStore rfl

/-- C6 counterexample: with the alias table mapping "ABCCO" to the standard
brand " abc corp ", the code returns the trimmed upper-cased "ABC CORP",
not the standard brand upper-cased (which would be " ABC CORP "). -/
theorem resolveBrand_untrimmed_standard_counterexample :
    resolveBrand (aliasData [("ABCCO", " abc corp ")] "ABCCO") "ABCCO" = "ABC CORP" ∧
    jsToUpper " abc corp " = " ABC CORP " ∧
    ("ABC CORP" : String) ≠ " ABC CORP " := by
  refine ⟨by decide, by decide, by decide⟩

/-- C6 amended: when the alias table has an entry whose alias key equals the
input, `resolveBrand` returns the entry's standard brand trimmed and
upper-cased if the trim is non-empty, and the input upper-cased otherwise;
when no matching entry exists it returns the input unchanged; and a lookup
error (null `data`) is treated identically, returning the input unchanged —
the function is total and never fails. -/
theorem resolveBrand_characterization (tbl : List (String × String)) (k : String) :
    (∀ p, tbl.find? (fun q => q.1 == k) = some p →
        resolveBrand (aliasData tbl k) k =
          (if jsTrim p.2 = "" then jsToUpper k else jsToUpper (jsTrim p.2))) ∧
    (tbl.find? (fun q => q.1 == k) = none → resolveBrand (aliasData tbl k) k = k) ∧
    resolveBrand none k = k := by
  refine ⟨?_, ?_, rfl⟩
  · intro p hp
    unfold aliasData resolveBrand
    rw [hp]
    simp only [Option.map]
    unfold text
    by_cases h : jsTrim (jsToString (coalesceEmpty (JSVal.str p.2))) = ""
    · have h' : jsTrim p.2 = "" := h
      rw [if_pos h']
      simp [h]
    · have h' : ¬jsTrim p.2 = "" := h
      rw [if_neg h']
      simp [h]
      rfl
  · intro hp
    unfold aliasData resolveBrand
    rw [hp]
    rfl

theorem resolveBrand_characterization_witness :
    resolveBrand (aliasData [("ABCCO", "ABC CORP")] "ABCCO") "ABCCO" = "ABC CORP" ∧
    resolveBrand (aliasData [("ABCCO", "ABC CORP")] "UNKNOWN") "UNKNOWN" = "UNKNOWN" := by
  constructor
  · have h := (resolveBrand_characterization [("ABCCO", "ABC CORP")] "ABCCO").1
      ("ABCCO", "ABC CORP") (by decide)
    rw [h]
    decide
  · exact (resolveBrand_characterization [("ABCCO", "ABC CORP")] "UNKNOWN").2.1 (by decide)

theorem savedSpec_length (env : Env) (lines : List DraftLine) :
    ∀ i rid, (savedSpec env lines i rid).length = lines.length := by
  induction lines with
  | nil => intro i rid; rfl
  | cons l rest ih =>
    intro i rid
    simp only [savedSpec, List.length_cons, ih]

theorem savedSpec_get? (env : Env) (lines : List DraftLine) :
    ∀ i rid j line, lines.get? j = some line →
      (savedSpec env lines i rid).get? j = some (mkSaved env (i + j) (rid + j) line) := by
  induction lines with
  | nil =>
    intro i rid j line h
    simp at h
  | cons l rest ih =>
    intro i rid j line h
    cases j with
    | zero =>
      simp only [List.get?] at h
      cases h
      rfl
    | succ j =>
      simp only [List.get?] at h
      simp only [savedSpec, List.get?]
      rw [ih (i + 1) (rid + 1) j line h]
      have e1 : i + 1 + j = i + (j + 1) := by omega
      have e2 : rid + 1 + j = rid + (j + 1) := by omega
      rw [e1, e2]

theorem qRowsSpec_length (env : Env) (userId : String) (qid : Nat) (its : List SavedItem) :
    ∀ i rid, (qRowsSpec env userId qid its i rid).length = its.length := by
  induction its with
  | nil => intro i rid; rfl
  | cons it rest ih =>
    intro i rid
    simp only [qRowsSpec, List.length_cons, ih]

theorem qRowsSpec_get? (env : Env) (userId : String) (qid : Nat) (its : List SavedItem) :
    ∀ i rid j it, its.get? j = some it →
      (qRowsSpec env userId qid its i rid).get? j =
        some (mkQItemRow env userId qid (i + j) (rid + j) it) := by
  induction its with
  | nil =>
    intro i rid j it h
    simp at h
  | cons x rest ih =>
    intro i rid j it h
    cases j with
    | zero =>
      simp only [List.get?] at h
      cases h
      rfl
    | succ j =>
      simp only [List.get?] at h
      simp only [qRowsSpec, List.get?]
      rw [ih (i + 1) (rid + 1) j it h]
      have e1 : i + 1 + j = i + (j + 1) := by omega
      have e2 : rid + 1 + j = rid + (j + 1) := by omega
      rw [e1, e2]

theorem insertItems_all_ok (env : Env) (userId : String) (iid : Nat)
    (hok : ∀ j, env.itemInsertOk j = true) :
    ∀ (lines : List DraftLine) (i : Nat) (st : Store),
      insertItems env userId iid lines i st =
        ({ st with nextId := st.nextId + lines.length,
                   inquiryItems := st.inquiryItems ++
                     (savedSpec env lines i st.nextId).map (itemRowOf iid userId) },
         Except.ok (savedSpec env lines i st.nextId)) := by
  intro lines
  induction lines with
  | nil =>
    intro i st
    simp only [insertItems, savedSpec, List.map_nil, List.append_nil, List.length_nil,
      Nat.add_zero]
  | cons l rest ih =>
    intro i st
    simp only [insertItems]
    rw [hok i]
    simp only [if_true]
    rw [ih (i + 1)]
    simp only [savedSpec, List.map_cons, List.length_cons]
    refine congrArg (fun z => (z, _)) ?_
    have e1 : st.nextId + 1 + rest.length = st.nextId + (rest.length + 1) := by omega
    simp only [e1]
    have e2 : (st.inquiryItems ++ [itemRowOf iid userId (mkSaved env i st.nextId l)]) ++
        (savedSpec env rest (i + 1) (st.nextId + 1)).map (itemRowOf iid userId) =
        st.inquiryItems ++ (itemRowOf iid userId (mkSaved env i st.nextId l) ::
          (savedSpec env rest (i + 1) (st.nextId + 1)).map (itemRowOf iid userId)) := by
      rw [List.append_assoc]
      rfl
    rw [e2]

theorem insertQItems_all_ok (env : Env) (userId : String) (qid : Nat)
    (hok : ∀ j, env.qitemInsertOk j = true) :
    ∀ (its : List SavedItem) (i : Nat) (st : Store),
      insertQItems env userId qid its i st =
        ({ st with nextId := st.nextId + its.length,
                   quotationItems := st.quotationItems ++ qRowsSpec env userId qid its i st.nextId },
         Except.ok ()) := by
  intro its
  induction its with
  | nil =>
    intro i st
    simp only [insertQItems, qRowsSpec, List.append_nil, List.length_nil, Nat.add_zero]
  | cons it rest ih =>
    intro i st
    simp only [insertQItems]
    rw [hok i]
    simp only [if_true]
    rw [ih (i + 1)]
    simp only [qRowsSpec, List.length_cons]
    refine congrArg (fun z => (z, _)) ?_
    have e1 : st.nextId + 1 + rest.length = st.nextId + (rest.length + 1) := by omega
    simp only [e1]
    have e2 : (st.quotationItems ++ [mkQItemRow env userId qid i st.nextId it]) ++
        qRowsSpec env userId qid rest (i + 1) (st.nextId + 1) =
        st.quotationItems ++ (mkQItemRow env userId qid i st.nextId it ::
          qRowsSpec env userId qid rest (i + 1) (st.nextId + 1)) := by
      rw [List.append_assoc]
      rfl
    rw [e2]

theorem insertItems_fail_at (env : Env) (userId : String) (iid : Nat) :
    ∀ (m : Nat) (lines : List DraftLine) (i : Nat) (st : Store),
      m < lines.length →
      (∀ j, j < m → env.itemInsertOk (i + j) = true) →
      env.itemInsertOk (i + m) = false →
      insertItems env userId iid lines i st =
        ({ st with nextId := st.nextId + m,
                   inquiryItems := st.inquiryItems ++
                     (savedSpec env (lines.take m) i st.nextId).map (itemRowOf iid userId) },
         Except.error msgItemFailed) := by
  intro m
  induction m with
  | zero =>
    intro lines i st hlt hok hfail
    cases lines with
    | nil => simp at hlt
    | cons l rest =>
      simp only [insertItems]
      rw [Nat.add_zero] at hfail
      rw [hfail]
      simp only [Bool.false_eq_true, if_false, List.take_zero, savedSpec, List.map_nil,
        List.append_nil, Nat.add_zero]
  | succ m ih =>
    intro lines i st hlt hok hfail
    cases lines with
    | nil => simp at hlt
    | cons l rest =>
      simp only [insertItems]
      have h0 : env.itemInsertOk i = true := by
        have h1 := hok 0 (Nat.succ_pos m)
        rwa [Nat.add_zero] at h1
      rw [h0]
      simp only [if_true]
      have hok' : ∀ j, j < m → env.itemInsertOk (i + 1 + j) = true := by
        intro j hj
        have h1 := hok (j + 1) (by omega)
        rwa [show i + (j + 1) = i + 1 + j by omega] at h1
      have hfail' : env.itemInsertOk (i + 1 + m) = false := by
        rwa [show i + (m + 1) = i + 1 + m by omega] at hfail
      rw [ih rest (i + 1) _ (by simpa using hlt) hok' hfail']
      simp only [List.take_succ_cons, savedSpec, List.map_cons]
      refine congrArg (fun z => (z, _)) ?_
      have e1 : st.nextId + 1 + m = st.nextId + (m + 1) := by omega
      simp only [e1]
      have e2 : (st.inquiryItems ++ [itemRowOf iid userId (mkSaved env i st.nextId l)]) ++
          (savedSpec env (rest.take m) (i + 1) (st.nextId + 1)).map (itemRowOf iid userId) =
          st.inquiryItems ++ (itemRowOf iid userId (mkSaved env i st.nextId l) ::
            (savedSpec env (rest.take m) (i + 1) (st.nextId + 1)).map (itemRowOf iid userId)) := by
        rw [List.append_assoc]
        rfl
      rw [e2]

theorem priceHit_isSome_iff (pl : List PriceEntry) (b c : String)
    (hkey : (pl.filter (fun e => e.brand == b && e.normalizedCatalog == c)).length ≤ 1) :
    (priceHit pl b c).isSome = true ↔
      ∃ e ∈ pl, e.brand = b ∧ e.normalizedCatalog = c := by
  unfold priceHit
  cases hf : pl.filter (fun e => e.brand == b && e.normalizedCatalog == c) with
  | nil =>
    constructor
    · intro h
      simp at h
    · rintro ⟨e, he, hb, hc⟩
      have hmem : e ∈ pl.filter (fun e => e.brand == b && e.normalizedCatalog == c) :=
        List.mem_filter.mpr ⟨he, by simp [hb, hc]⟩
      rw [hf] at hmem
      simp at hmem
  | cons e rest =>
    rw [hf] at hkey
    simp only [List.length_cons] at hkey
    have hrest : rest = [] := by
      cases rest with
      | nil => rfl
      | cons x xs => simp at hkey
    subst hrest
    constructor
    · intro _
      have hmem : e ∈ pl.filter (fun e => e.brand == b && e.normalizedCatalog == c) := by
        rw [hf]
        exact List.mem_cons_self _ _
      have h2 := List.mem_filter.mp hmem
      refine ⟨e, h2.1, ?_, ?_⟩
      · have h3 := h2.2
        simp only [Bool.and_eq_true, beq_iff_eq] at h3
        exact h3.1
      · have h3 := h2.2
        simp only [Bool.and_eq_true, beq_iff_eq] at h3
        exact h3.2
    · intro _
      simp

theorem priceHit_some_mem (pl : List PriceEntry) (b c : String) (x : Nat)
    (h : priceHit pl b c = some x) :
    ∃ e ∈ pl, e.brand = b ∧ e.normalizedCatalog = c ∧ e.id = x := by
  unfold priceHit at h
  cases hf : pl.filter (fun e => e.brand == b && e.normalizedCatalog == c) with
  | nil =>
    rw [hf] at h
    cases h
  | cons e rest =>
    rw [hf] at h
    cases rest with
    | cons y ys => cases h
    | nil =>
      have hid : e.id = x := by
        simpa using h
      have hmem : e ∈ pl.filter (fun e => e.brand == b && e.normalizedCatalog == c) := by
        rw [hf]
        exact List.mem_cons_self _ _
      have h2 := List.mem_filter.mp hmem
      have h3 := h2.2
      simp only [Bool.and_eq_true, beq_iff_eq] at h3
      exact ⟨e, h2.1, h3.1, h3.2, hid⟩

theorem mkQItemRow_fields (env : Env) (userId : String) (qid i rid : Nat) (it : SavedItem)
    (hpf : env.priceFail i = false)
    (hkey : (env.priceList.filter
        (fun e => e.brand == it.brandStandard && e.normalizedCatalog == it.normalizedCatalog)).length ≤ 1) :
    (mkQItemRow env userId qid i rid it).quotationId = qid ∧
    (mkQItemRow env userId qid i rid it).inquiryItemId = it.id ∧
    (mkQItemRow env userId qid i rid it).brandStandard = it.brandStandard ∧
    (mkQItemRow env userId qid i rid it).brand = it.brandStandard ∧
    (mkQItemRow env userId qid i rid it).normalizedCatalog = it.normalizedCatalog ∧
    ((mkQItemRow env userId qid i rid it).matchStatus = "matched" ↔
      ∃ e ∈ env.priceList, e.brand = it.brandStandard ∧
        e.normalizedCatalog = it.normalizedCatalog) ∧
    ((mkQItemRow env userId qid i rid it).matchStatus = "matched" →
      ∃ e ∈ env.priceList, e.brand = it.brandStandard ∧
        e.normalizedCatalog = it.normalizedCatalog ∧
        (mkQItemRow env userId qid i rid it).priceListId = some e.id) ∧
    ((mkQItemRow env userId qid i rid it).matchStatus ≠ "matched" →
      (mkQItemRow env userId qid i rid it).matchStatus = "not_found" ∧
      (mkQItemRow env userId qid i rid it).priceListId = none) := by
  have hhit : (if env.priceFail i then none
      else priceHit env.priceList it.brandStandard it.normalizedCatalog) =
      priceHit env.priceList it.brandStandard it.normalizedCatalog := by
    rw [hpf]
    simp
  have hms : (mkQItemRow env userId qid i rid it).matchStatus =
      (if (priceHit env.priceList it.brandStandard it.normalizedCatalog).isSome
       then "matched" else "not_found") := by
    simp only [mkQItemRow, hhit]
  have hpid : (mkQItemRow env userId qid i rid it).priceListId =
      priceHit env.priceList it.brandStandard it.normalizedCatalog := by
    simp only [mkQItemRow, hhit]
  refine ⟨rfl, rfl, rfl, rfl, rfl, ?_, ?_, ?_⟩
  · rw [hms]
    cases hs : priceHit env.priceList it.brandStandard it.normalizedCatalog with
    | none =>
      rw [if_neg (by simp)]
      constructor
      · intro hcon
        exact absurd hcon (by decide)
      · intro hex
        have h2 := (priceHit_isSome_iff env.priceList it.brandStandard
          it.normalizedCatalog hkey).mpr hex
        rw [hs] at h2
        simp at h2
    | some x =>
      rw [if_pos (by simp)]
      constructor
      · intro _
        obtain ⟨e, he, hb, hc, -⟩ := priceHit_some_mem _ _ _ _ hs
        exact ⟨e, he, hb, hc⟩
      · intro _
        rfl
  · rw [hms, hpid]
    cases hs : priceHit env.priceList it.brandStandard it.normalizedCatalog with
    | none =>
      rw [if_neg (by simp)]
      intro hcon
      exact absurd hcon (by decide)
    | some x =>
      rw [if_pos (by simp)]
      intro _
      obtain ⟨e, he, hb, hc, hid⟩ := priceHit_some_mem _ _ _ _ hs
      exact ⟨e, he, hb, hc, by rw [hid]⟩
  · rw [hms, hpid]
    cases hs : priceHit env.priceList it.brandStandard it.normalizedCatalog with
    | none =>
      rw [if_neg (by simp)]
      intro _
      exact ⟨rfl, rfl⟩
    | some x =>
      rw [if_pos (by simp)]
      intro hcon
      exact absurd rfl hcon

theorem persist_all_ok_eq (env : Env) (userId : String) (draft : Draft) (st : Store)
    (hne : draft.lines ≠ [])
    (hinq : env.inquiryInsertOk = true)
    (hitems : ∀ i, env.itemInsertOk i = true)
    (hquo : env.quotationInsertOk = true)
    (hqitems : ∀ i, env.qitemInsertOk i = true) :
    persist env userId draft st =
      ({ nextId := st.nextId + 1 + draft.lines.length + 1 +
            (savedSpec env draft.lines 0 (st.nextId + 1)).length,
         inquiries := st.inquiries ++ [inquiryRowOf userId st.nextId draft],
         inquiryItems := st.inquiryItems ++
           (savedSpec env draft.lines 0 (st.nextId + 1)).map (itemRowOf st.nextId userId),
         quotations := st.quotations ++
           [quotationRowOf userId (st.nextId + 1 + draft.lines.length) st.nextId draft],
         quotationItems := st.quotationItems ++
           qRowsSpec env userId (st.nextId + 1 + draft.lines.length)
             (savedSpec env draft.lines 0 (st.nextId + 1)) 0
             (st.nextId + 1 + draft.lines.length + 1) },
       Except.ok (st.nextId, st.nextId + 1 + draft.lines.length)) := by
  have hempty : draft.lines.isEmpty = false := by
    cases hl : draft.lines with
    | nil => exact absurd hl hne
    | cons a t => rfl
  unfold persist
  rw [hempty]
  simp only [Bool.false_eq_true, if_false]
  rw [hinq]
  simp only [if_true]
  rw [insertItems_all_ok env userId st.nextId hitems draft.lines 0]
  dsimp only
  rw [hquo]
  simp only [if_true]
  rw [insertQItems_all_ok env userId (st.nextId + 1 + draft.lines.length) hqitems
    (savedSpec env draft.lines 0 (st.nextId + 1)) 0]

theorem savedSpec_forall2 (env : Env) (userId : String) (iid : Nat)
    (halias : ∀ i, env.aliasFail i = false) :
    ∀ (lines : List DraftLine) (i rid : Nat),
      List.Forall₂ (fun (l : DraftLine) (r : InquiryItemRow) =>
        r.catalogNumber = l.catalogUpper ∧
        r.normalizedCatalog = l.normalizedCatalog ∧
        r.quantity = l.quantity ∧
        r.brand = resolveBrand (aliasData env.aliasTbl l.brandInputUpper) l.brandInputUpper)
        lines ((savedSpec env lines i rid).map (itemRowOf iid userId)) := by
  intro lines
  induction lines with
  | nil =>
    intro i rid
    exact List.Forall₂.nil
  | cons l rest ih =>
    intro i rid
    simp only [savedSpec, List.map_cons]
    refine List.Forall₂.cons ⟨rfl, rfl, rfl, ?_⟩ (ih (i + 1) (rid + 1))
    simp only [itemRowOf, mkSaved, halias i]
    simp

/-- C1: with N valid lines and every brand resolution, price-list lookup
and insert succeeding (lookups succeed when no transport error occurs and
the price list holds at most one entry per (brand, normalized catalog)
key, as a multi-row `maybeSingle` is an error), `persist` commits exactly
one new Inquiry, N new InquiryItems referencing it, one new Quotation
referencing the Inquiry, and N new QuotationItems each referencing the
Quotation and its corresponding InquiryItem; each QuotationItem is
`matched` iff a price-list entry exists for its (resolved brand,
normalized catalog) pair, carrying that entry's id exactly when matched. -/
theorem persist_success_graph (env : Env) (userId : String) (draft : Draft) (st : Store)
    (hne : draft.lines ≠ [])
    (hinq : env.inquiryInsertOk = true)
    (hitems : ∀ i, env.itemInsertOk i = true)
    (hquo : env.quotationInsertOk = true)
    (hqitems : ∀ i, env.qitemInsertOk i = true)
    (_halias : ∀ i, env.aliasFail i = false)
    (hpfail : ∀ i, env.priceFail i = false)
    (hkey : ∀ b c, (env.priceList.filter
        (fun e => e.brand == b && e.normalizedCatalog == c)).length ≤ 1) :
    ∃ (inqRow : InquiryRow) (newItems : List InquiryItemRow) (qRow : QuotationRow)
      (newQItems : List QuotationItemRow) (st' : Store),
      persist env userId draft st = (st', Except.ok (inqRow.id, qRow.id)) ∧
      st'.inquiries = st.inquiries ++ [inqRow] ∧
      st'.inquiryItems = st.inquiryItems ++ newItems ∧
      newItems.length = draft.lines.length ∧
      (∀ r ∈ newItems, r.inquiryId = inqRow.id) ∧
      st'.quotations = st.quotations ++ [qRow] ∧
      qRow.inquiryId = inqRow.id ∧
      st'.quotationItems = st.quotationItems ++ newQItems ∧
      newQItems.length = draft.lines.length ∧
      (∀ j, j < draft.lines.length →
        ∃ qrow irow line,
          newQItems.get? j = some qrow ∧ newItems.get? j = some irow ∧
          draft.lines.get? j = some line ∧
          qrow.quotationId = qRow.id ∧
          qrow.inquiryItemId = irow.id ∧
          irow.inquiryId = inqRow.id ∧
          qrow.brandStandard = irow.brand ∧
          qrow.normalizedCatalog = line.normalizedCatalog ∧
          (qrow.matchStatus = "matched" ↔
            ∃ e ∈ env.priceList, e.brand = irow.brand ∧
              e.normalizedCatalog = line.normalizedCatalog) ∧
          (qrow.matchStatus = "matched" →
            ∃ e ∈ env.priceList, e.brand = irow.brand ∧
              e.normalizedCatalog = line.normalizedCatalog ∧
              qrow.priceListId = some e.id) ∧
          (qrow.matchStatus ≠ "matched" →
            qrow.matchStatus = "not_found" ∧ qrow.priceListId = none)) := by
  have hempty : draft.lines.isEmpty = false := by
    cases hl : draft.lines with
    | nil => exact absurd hl hne
    | cons a t => rfl
  have hcompute :
      persist env userId draft st =
        ({ nextId := st.nextId + 1 + draft.lines.length + 1 +
              (savedSpec env draft.lines 0 (st.nextId + 1)).length,
           inquiries := st.inquiries ++ [inquiryRowOf userId st.nextId draft],
           inquiryItems := st.inquiryItems ++
             (savedSpec env draft.lines 0 (st.nextId + 1)).map (itemRowOf st.nextId userId),
           quotations := st.quotations ++
             [quotationRowOf userId (st.nextId + 1 + draft.lines.length) st.nextId draft],
           quotationItems := st.quotationItems ++
             qRowsSpec env userId (st.nextId + 1 + draft.lines.length)
               (savedSpec env draft.lines 0 (st.nextId + 1)) 0
               (st.nextId + 1 + draft.lines.length + 1) },
         Except.ok (st.nextId, st.nextId + 1 + draft.lines.length)) :=
    persist_all_ok_eq env userId draft st hne hinq hitems hquo hqitems
  refine ⟨inquiryRowOf userId st.nextId draft,
    (savedSpec env draft.lines 0 (st.nextId + 1)).map (itemRowOf st.nextId userId),
    quotationRowOf userId (st.nextId + 1 + draft.lines.length) st.nextId draft,
    qRowsSpec env userId (st.nextId + 1 + draft.lines.length)
      (savedSpec env draft.lines 0 (st.nextId + 1)) 0
      (st.nextId + 1 + draft.lines.length + 1),
    _, hcompute, rfl, rfl, ?_, ?_, rfl, rfl, rfl, ?_, ?_⟩
  · rw [List.length_map, savedSpec_length]
  · intro r hr
    obtain ⟨s, hs, rfl⟩ := List.mem_map.mp hr
    rfl
  · rw [qRowsSpec_length, savedSpec_length]
  · intro j hj
    have hline : draft.lines.get? j = some (draft.lines.get ⟨j, hj⟩) :=
      List.get?_eq_get hj
    have hsaved := savedSpec_get? env draft.lines 0 (st.nextId + 1) j
      (draft.lines.get ⟨j, hj⟩) hline
    have hirow : ((savedSpec env draft.lines 0 (st.nextId + 1)).map
        (itemRowOf st.nextId userId)).get? j =
        some (itemRowOf st.nextId userId
          (mkSaved env (0 + j) (st.nextId + 1 + j) (draft.lines.get ⟨j, hj⟩))) := by
      rw [List.get?_eq_getElem?, List.getElem?_map, ← List.get?_eq_getElem?, hsaved]
      rfl
    have hqrow := qRowsSpec_get? env userId (st.nextId + 1 + draft.lines.length)
      (savedSpec env draft.lines 0 (st.nextId + 1)) 0
      (st.nextId + 1 + draft.lines.length + 1) j
      (mkSaved env (0 + j) (st.nextId + 1 + j) (draft.lines.get ⟨j, hj⟩)) hsaved
    obtain ⟨f1, f2, f3, f4, f5, f6, f7, f8⟩ := mkQItemRow_fields env userId
      (st.nextId + 1 + draft.lines.length) (0 + j)
      (st.nextId + 1 + draft.lines.length + 1 + j)
      (mkSaved env (0 + j) (st.nextId + 1 + j) (draft.lines.get ⟨j, hj⟩))
      (hpfail (0 + j)) (hkey _ _)
    exact ⟨mkQItemRow env userId (st.nextId + 1 + draft.lines.length) (0 + j)
        (st.nextId + 1 + draft.lines.length + 1 + j)
        (mkSaved env (0 + j) (st.nextId + 1 + j) (draft.lines.get ⟨j, hj⟩)),
      itemRowOf st.nextId userId
        (mkSaved env (0 + j) (st.nextId + 1 + j) (draft.lines.get ⟨j, hj⟩)),
      draft.lines.get ⟨j, hj⟩,
      hqrow, hirow, hline, f1, f2, rfl, f3, f5, f6, f7, f8⟩

theorem persist_success_graph_witness :
    ∃ (inqRow : InquiryRow) (newItems : List InquiryItemRow) (qRow : QuotationRow)
      (newQItems : List QuotationItemRow) (st' : Store),
      persist sampleEnvOk "u" sampleDraft1 sampleStore = (st', Except.ok (inqRow.id, qRow.id)) ∧
      st'.inquiries = sampleStore.inquiries ++ [inqRow] ∧
      st'.inquiryItems = sampleStore.inquiryItems ++ newItems ∧
      newItems.length = sampleDraft1.lines.length ∧
      (∀ r ∈ newItems, r.inquiryId = inqRow.id) ∧
      st'.quotations = sampleStore.quotations ++ [qRow] ∧
      qRow.inquiryId = inqRow.id ∧
      st'.quotationItems = sampleStore.quotationItems ++ newQItems ∧
      newQItems.length = sampleDraft1.lines.length ∧
      (∀ j, j < sampleDraft1.lines.length →
        ∃ qrow irow line,
          newQItems.get? j = some qrow ∧ newItems.get? j = some irow ∧
          sampleDraft1.lines.get? j = some line ∧
          qrow.quotationId = qRow.id ∧
          qrow.inquiryItemId = irow.id ∧
          irow.inquiryId = inqRow.id ∧
          qrow.brandStandard = irow.brand ∧
          qrow.normalizedCatalog = line.normalizedCatalog ∧
          (qrow.matchStatus = "matched" ↔
            ∃ e ∈ sampleEnvOk.priceList, e.brand = irow.brand ∧
              e.normalizedCatalog = line.normalizedCatalog) ∧
          (qrow.matchStatus = "matched" →
            ∃ e ∈ sampleEnvOk.priceList, e.brand = irow.brand ∧
              e.normalizedCatalog = line.normalizedCatalog ∧
              qrow.priceListId = some e.id) ∧
          (qrow.matchStatus ≠ "matched" →
            qrow.matchStatus = "not_found" ∧ qrow.priceListId = none)) :=
  persist_success_graph sampleEnvOk "u" sampleDraft1 sampleStore (by decide) rfl
    (fun _ => rfl) rfl (fun _ => rfl) (fun _ => rfl) (fun _ => rfl)
    (fun b c => List.length_filter_le _ _)

/-- C2: if the InquiryItem insert for line k (1-based) fails while every
earlier insert succeeded, `persist` aborts at once with an error; the store
afterwards holds exactly the new Inquiry row and the k-1 InquiryItem rows
for the lines before k, with no Quotation, no QuotationItems, no
InquiryItem for line k or later, and all previously committed rows still
present (no compensating delete). -/
theorem persist_item_insert_failure (env : Env) (userId : String) (draft : Draft) (st : Store)
    (k : Nat) (hk1 : 1 ≤ k) (hk2 : k ≤ draft.lines.length)
    (hinq : env.inquiryInsertOk = true)
    (hok : ∀ j, j < k - 1 → env.itemInsertOk j = true)
    (hfail : env.itemInsertOk (k - 1) = false) :
    ∃ (inqRow : InquiryRow) (rows : List InquiryItemRow) (st' : Store),
      persist env userId draft st = (st', Except.error msgItemFailed) ∧
      st'.inquiries = st.inquiries ++ [inqRow] ∧
      st'.inquiryItems = st.inquiryItems ++ rows ∧
      rows.length = k - 1 ∧
      (∀ j, j < k - 1 →
        ∃ r line, rows.get? j = some r ∧ draft.lines.get? j = some line ∧
          r.inquiryId = inqRow.id ∧
          r.catalogNumber = line.catalogUpper ∧
          r.normalizedCatalog = line.normalizedCatalog ∧
          r.quantity = line.quantity ∧
          r.brand = resolveBrand (if env.aliasFail j then none
            else aliasData env.aliasTbl line.brandInputUpper) line.brandInputUpper) ∧
      st'.quotations = st.quotations ∧
      st'.quotationItems = st.quotationItems := by
  have hempty : draft.lines.isEmpty = false := by
    cases hl : draft.lines with
    | nil =>
      rw [hl] at hk2
      simp at hk2
      omega
    | cons a t => rfl
  have hok' : ∀ j, j < k - 1 → env.itemInsertOk (0 + j) = true := by
    intro j hj
    rw [Nat.zero_add]
    exact hok j hj
  have hfail' : env.itemInsertOk (0 + (k - 1)) = false := by
    rw [Nat.zero_add]
    exact hfail
  have hcompute :
      persist env userId draft st =
        ({ nextId := st.nextId + 1 + (k - 1),
           inquiries := st.inquiries ++ [inquiryRowOf userId st.nextId draft],
           inquiryItems := st.inquiryItems ++
             (savedSpec env (draft.lines.take (k - 1)) 0 (st.nextId + 1)).map
               (itemRowOf st.nextId userId),
           quotations := st.quotations,
           quotationItems := st.quotationItems },
         Except.error msgItemFailed) := by
    unfold persist
    rw [hempty]
    simp only [Bool.false_eq_true, if_false]
    rw [hinq]
    simp only [if_true]
    rw [insertItems_fail_at env userId st.nextId (k - 1) draft.lines 0
      { st with nextId := st.nextId + 1,
                inquiries := st.inquiries ++ [inquiryRowOf userId st.nextId draft] }
      (by omega) hok' hfail']
  refine ⟨inquiryRowOf userId st.nextId draft,
    (savedSpec env (draft.lines.take (k - 1)) 0 (st.nextId + 1)).map
      (itemRowOf st.nextId userId),
    _, hcompute, rfl, rfl, ?_, ?_, rfl, rfl⟩
  · rw [List.length_map, savedSpec_length, List.length_take]
    omega
  · intro j hj
    have hj2 : j < draft.lines.length := by omega
    have hline : draft.lines.get? j = some (draft.lines.get ⟨j, hj2⟩) :=
      List.get?_eq_get hj2
    have htake : (draft.lines.take (k - 1)).get? j =
        some (draft.lines.get ⟨j, hj2⟩) := by
      rw [List.get?_eq_getElem?, List.getElem?_take_of_lt hj, ← List.get?_eq_getElem?]
      exact hline
    have hsaved := savedSpec_get? env (draft.lines.take (k - 1)) 0 (st.nextId + 1) j
      (draft.lines.get ⟨j, hj2⟩) htake
    rw [Nat.zero_add] at hsaved
    have hrow : ((savedSpec env (draft.lines.take (k - 1)) 0 (st.nextId + 1)).map
        (itemRowOf st.nextId userId)).get? j =
        some (itemRowOf st.nextId userId
          (mkSaved env j (st.nextId + 1 + j) (draft.lines.get ⟨j, hj2⟩))) := by
      rw [List.get?_eq_getElem?, List.getElem?_map, ← List.get?_eq_getElem?, hsaved]
      rfl
    exact ⟨itemRowOf st.nextId userId
        (mkSaved env j (st.nextId + 1 + j) (draft.lines.get ⟨j, hj2⟩)),
      draft.lines.get ⟨j, hj2⟩, hrow, hline, rfl, rfl, rfl, rfl, rfl⟩

theorem persist_item_insert_failure_witness :
    ∃ (inqRow : InquiryRow) (rows : List InquiryItemRow) (st' : Store),
      persist sampleEnvFailAt2 "u" sampleDraft3 sampleStore = (st', Except.error msgItemFailed) ∧
      st'.inquiries = sampleStore.inquiries ++ [inqRow] ∧
      st'.inquiryItems = sampleStore.inquiryItems ++ rows ∧
      rows.length = 2 - 1 ∧
      (∀ j, j < 2 - 1 →
        ∃ r line, rows.get? j = some r ∧ sampleDraft3.lines.get? j = some line ∧
          r.inquiryId = inqRow.id ∧
          r.catalogNumber = line.catalogUpper ∧
          r.normalizedCatalog = line.normalizedCatalog ∧
          r.quantity = line.quantity ∧
          r.brand = resolveBrand (if sampleEnvFailAt2.aliasFail j then none
            else aliasData sampleEnvFailAt2.aliasTbl line.brandInputUpper)
            line.brandInputUpper) ∧
      st'.quotations = sampleStore.quotations ∧
      st'.quotationItems = sampleStore.quotationItems :=
  persist_item_insert_failure sampleEnvFailAt2 "u" sampleDraft3 sampleStore 2
    (by decide) (by decide) rfl (by decide) (by decide)

theorem filterMap_mono_indices {α β : Type} (f : α → Option β) (l : List α) :
    ∃ idx : List Nat, idx.Pairwise (· < ·) ∧
      List.Forall₂ (fun i b => ∃ a, l.get? i = some a ∧ f a = some b)
        idx (l.filterMap f) := by
  induction l with
  | nil => exact ⟨[], List.Pairwise.nil, by simp⟩
  | cons a t ih =>
    obtain ⟨idx, hp, hf⟩ := ih
    cases hfa : f a with
    | none =>
      refine ⟨idx.map (· + 1), ?_, ?_⟩
      · rw [List.pairwise_map]
        exact hp.imp (fun h => by omega)
      · rw [List.filterMap_cons_none hfa, List.forall₂_map_left_iff]
        exact hf.imp (fun i b h => h)
    | some b =>
      refine ⟨0 :: idx.map (· + 1), ?_, ?_⟩
      · rw [List.pairwise_cons]
        constructor
        · intro y hy
          obtain ⟨x, hx, rfl⟩ := List.mem_map.mp hy
          omega
        · rw [List.pairwise_map]
          exact hp.imp (fun h => by omega)
      · rw [List.filterMap_cons_some hfa]
        refine List.Forall₂.cons ⟨a, rfl, hfa⟩ ?_
        rw [List.forall₂_map_left_iff]
        exact hf.imp (fun i b h => h)

/-- C8: the surviving draft lines appear in the same relative order as their
originating raw items (a strictly increasing index list maps each surviving
line to its source item), and an all-successful `persist` appends one
InquiryItem row per line in that same order: the k-th appended row carries
the k-th line's catalog, normalized catalog, quantity and resolved brand. -/
theorem order_preservation (env : Env) (userId : String) (ai : RawAiDraft) (st : Store)
    (hne : (transformAiToDraft ai).lines ≠ [])
    (hinq : env.inquiryInsertOk = true)
    (hitems : ∀ i, env.itemInsertOk i = true)
    (hquo : env.quotationInsertOk = true)
    (hqitems : ∀ i, env.qitemInsertOk i = true)
    (halias : ∀ i, env.aliasFail i = false) :
    (∃ idx : List Nat, idx.Pairwise (· < ·) ∧
       List.Forall₂ (fun i b => ∃ it, (ai.items.getD []).get? i = some it ∧
         lineOfItem it = some b) idx (transformAiToDraft ai).lines) ∧
    (∃ (st' : Store) (ids : Nat × Nat) (newRows : List InquiryItemRow),
       persist env userId (transformAiToDraft ai) st = (st', Except.ok ids) ∧
       st'.inquiryItems = st.inquiryItems ++ newRows ∧
       List.Forall₂ (fun (l : DraftLine) (r : InquiryItemRow) =>
         r.catalogNumber = l.catalogUpper ∧
         r.normalizedCatalog = l.normalizedCatalog ∧
         r.quantity = l.quantity ∧
         r.brand = resolveBrand (aliasData env.aliasTbl l.brandInputUpper) l.brandInputUpper)
         (transformAiToDraft ai).lines newRows) := by
  constructor
  · exact filterMap_mono_indices lineOfItem (ai.items.getD [])
  · refine ⟨_, _,
      (savedSpec env (transformAiToDraft ai).lines 0 (st.nextId + 1)).map
        (itemRowOf st.nextId userId),
      persist_all_ok_eq env userId (transformAiToDraft ai) st hne hinq hitems hquo hqitems,
      rfl, savedSpec_forall2 env userId st.nextId halias (transformAiToDraft ai).lines 0
        (st.nextId + 1)⟩

theorem order_preservation_witness :
    (∃ idx : List Nat, idx.Pairwise (· < ·) ∧
       List.Forall₂ (fun i b => ∃ it, (sampleAi.items.getD []).get? i = some it ∧
         lineOfItem it = some b) idx (transformAiToDraft sampleAi).lines) ∧
    (∃ (st' : Store) (ids : Nat × Nat) (newRows : List InquiryItemRow),
       persist sampleEnvOk "u" (transformAiToDraft sampleAi) sampleStore =
         (st', Except.ok ids) ∧
       st'.inquiryItems = sampleStore.inquiryItems ++ newRows ∧
       List.Forall₂ (fun (l : DraftLine) (r : InquiryItemRow) =>
         r.catalogNumber = l.catalogUpper ∧
         r.normalizedCatalog = l.normalizedCatalog ∧
         r.quantity = l.quantity ∧
         r.brand = resolveBrand (aliasData sampleEnvOk.aliasTbl l.brandInputUpper)
           l.brandInputUpper)
         (transformAiToDraft sampleAi).lines newRows) :=
  order_preservation sampleEnvOk "u" sampleAi sampleStore (by decide) rfl
    (fun _ => rfl) rfl (fun _ => rfl) (fun _ => rfl)

/-- C5: an item survives as a line iff, after string coercion and trimming,
its brand is non-empty, its catalog is non-empty, and its quantity parses in
base 10 to a strictly positive integer; quantity `"0"`, `"-3"`, `"abc"` and
absent are dropped, and quantity `"7"` with non-empty brand and catalog
survives with quantity 7. -/
theorem line_survival_rules :
    (∀ it : RawItem,
       (lineOfItem it).isSome ↔
         (text it.brand ≠ "" ∧ text it.catalog_number ≠ "" ∧
          ∃ q : Int, jsParseInt10 (jsTrim (jsToString (coalesceEmpty it.quantity))) = some q ∧ 0 < q)) ∧
    lineOfItem { brand := JSVal.str "B", catalog_number := JSVal.str "C", quantity := JSVal.str "0" } = none ∧
    lineOfItem { brand := JSVal.str "B", catalog_number := JSVal.str "C", quantity := JSVal.str "-3" } = none ∧
    lineOfItem { brand := JSVal.str "B", catalog_number := JSVal.str "C", quantity := JSVal.str "abc" } = none ∧
    lineOfItem { brand := JSVal.str "B", catalog_number := JSVal.str "C" } = none ∧
    (∀ it : RawItem, text it.brand ≠ "" → text it.catalog_number ≠ "" →
       it.quantity = JSVal.str "7" → ∃ l, lineOfItem it = some l ∧ l.quantity = 7) := by
  refine ⟨?_, by decide, by decide, by decide, by decide, ?_⟩
  · intro it
    cases hq : asQty it.quantity with
    | none =>
      simp only [lineOfItem, hq]
      constructor
      · intro hcon
        simp at hcon
      · rintro ⟨-, -, q, hpq, hq0⟩
        have h2 : asQty it.quantity = some q := (asQty_eq_some_iff _ _).mpr ⟨hpq, hq0⟩
        rw [hq] at h2
        exact absurd h2 (by simp)
    | some q =>
      simp only [lineOfItem, hq]
      by_cases hbc : text it.brand = "" ∨ text it.catalog_number = ""
      · rw [if_pos hbc]
        constructor
        · intro hcon
          simp at hcon
        · rintro ⟨h1, h2, -⟩
          cases hbc with
          | inl h => exact absurd h h1
          | inr h => exact absurd h h2
      · rw [if_neg hbc]
        push_neg at hbc
        simp only [Option.isSome_some, true_iff]
        exact ⟨hbc.1, hbc.2, q, (asQty_eq_some_iff _ _).mp hq⟩
  · intro it hb hc h7
    have hq : asQty it.quantity = some 7 := by
      rw [h7]
      decide
    refine ⟨{ brandInputUpper := jsToUpper (text it.brand)
              catalogUpper := jsToUpper (text it.catalog_number)
              normalizedCatalog := normalizeCatalog (text it.catalog_number)
              quantity := 7 }, ?_, rfl⟩
    simp only [lineOfItem, hq]
    rw [if_neg (not_or.mpr ⟨hb, hc⟩)]

theorem line_survival_rules_witness :
    ∃ l, lineOfItem { brand := JSVal.str "B", catalog_number := JSVal.str "C",
                      quantity := JSVal.str "7" } = some l ∧ l.quantity = 7 :=
  line_survival_rules.2.2.2.2.2 _ (by decide) (by decide) rfl

/-- C4: `transformAiToDraft` is a total function — it never fails — and
every line of the draft it returns has a non-empty brand, a non-empty
catalog and an integer quantity strictly greater than zero, for every raw
extraction whatsoever. -/
theorem draft_lines_always_valid (ai : RawAiDraft) (l : DraftLine)
    (h : l ∈ (transformAiToDraft ai).lines) :
    l.brandInputUpper ≠ "" ∧ l.catalogUpper ≠ "" ∧ 0 < l.quantity := by
  have h' : l ∈ (ai.items.getD []).filterMap lineOfItem := by
    simpa [transformAiToDraft] using h
  obtain ⟨it, -, hit⟩ := List.mem_filterMap.mp h'
  revert hit
  cases hq : asQty it.quantity with
  | none =>
    intro hit
    simp [lineOfItem, hq] at hit
  | some q =>
    by_cases hbc : text it.brand = "" ∨ text it.catalog_number = ""
    · intro hit
      simp only [lineOfItem, hq] at hit
      rw [if_pos hbc] at hit
      cases hit
    · intro hit
      simp only [lineOfItem, hq] at hit
      rw [if_neg hbc] at hit
      push_neg at hbc
      cases hit
      exact ⟨jsToUpper_ne_empty _ hbc.1, jsToUpper_ne_empty _ hbc.2, asQty_pos _ _ hq⟩

theorem isDigit10_not_ws (c : Char) (h : isDigit10 c = true) : isJsWhitespace c = false := by
  simp only [isDigit10, Bool.and_eq_true, decide_eq_true_eq] at h
  simp only [isJsWhitespace, Bool.or_eq_false_iff, Bool.and_eq_false_iff,
    decide_eq_false_iff_not]
  omega

theorem digit_ne_sign (c : Char) (h : isDigit10 c = true) : c ≠ '-' ∧ c ≠ '+' := by
  simp only [isDigit10, Bool.and_eq_true, decide_eq_true_eq] at h
  constructor <;> rintro rfl <;> exact absurd h (by decide)

theorem takeWhile_append_of_all (p : Char → Bool) (l₁ l₂ : List Char)
    (h1 : ∀ c ∈ l₁, p c = true)
    (h2 : l₂.head?.all (fun c => !p c) = true) :
    (l₁ ++ l₂).takeWhile p = l₁ := by
  induction l₁ with
  | nil =>
    cases l₂ with
    | nil => rfl
    | cons b t =>
      simp only [List.head?_cons, Option.all_some, Bool.not_eq_true'] at h2
      simp only [List.nil_append]
      exact List.takeWhile_cons_of_neg (by simp [h2])
  | cons a t ih =>
    have ha : p a = true := h1 a (List.mem_cons_self _ _)
    simp only [List.cons_append]
    rw [List.takeWhile_cons_of_pos ha, ih (fun c hc => h1 c (List.mem_cons_of_mem _ hc))]

/-- C9 counterexample: the quantity string "0.5" trims to the base-10
integer "0" followed by the non-digit ".5", yet `asQty` rejects it (the
leading integer is not strictly positive) and the line is dropped even with
non-empty brand and catalog, where the claim predicts survival with
quantity 0. -/
theorem asQty_zero_leading_counterexample :
    jsTrim "0.5" = "0" ++ ".5" ∧
    ("0" : String) ≠ "" ∧
    (∀ c ∈ ("0" : String).data, isDigit10 c = true) ∧
    (".5" : String).data.head?.all (fun c => !isDigit10 c) = true ∧
    asQty (JSVal.str "0.5") = none ∧
    lineOfItem { brand := JSVal.str "B", catalog_number := JSVal.str "C",
                 quantity := JSVal.str "0.5" } = none := by
  refine ⟨by decide, by decide, by decide, by decide, by decide, by decide⟩

/-- C9 amended: for every quantity string that, after trimming, begins with
a strictly positive base-10 integer followed by further non-digit
characters, the coercion returns that leading integer rather than rejecting
the string, and the line survives with the truncated quantity provided
brand and catalog are non-empty. -/
theorem asQty_leading_integer (s ds rest : String)
    (hsplit : jsTrim s = ds ++ rest)
    (hne : ds ≠ "")
    (hdig : ∀ c ∈ ds.data, isDigit10 c = true)
    (hrest : rest.data.head?.all (fun c => !isDigit10 c) = true)
    (hpos : 0 < digitsToNat ds.data) :
    asQty (JSVal.str s) = some ((digitsToNat ds.data : Int)) ∧
    (∀ it : RawItem, it.quantity = JSVal.str s → text it.brand ≠ "" →
       text it.catalog_number ≠ "" →
       ∃ l, lineOfItem it = some l ∧ l.quantity = (digitsToNat ds.data : Int)) := by
  obtain ⟨d, t, hd⟩ : ∃ d t, ds.data = d :: t := by
    cases hds : ds.data with
    | nil => exact absurd hds (data_ne_nil_of_ne_empty ds hne)
    | cons d t => exact ⟨d, t, rfl⟩
  have hdd : isDigit10 d = true := hdig d (by rw [hd]; exact List.mem_cons_self _ _)
  have hparse : jsParseInt10 (jsTrim s) = some ((digitsToNat ds.data : Int)) := by
    rw [hsplit, hd]
    simp only [jsParseInt10]
    have hdata : (ds ++ rest).data = d :: (t ++ rest.data) := by
      rw [String.data_append, hd]
      rfl
    rw [hdata]
    rw [List.dropWhile_cons_of_neg (by simp [isDigit10_not_ws d hdd])]
    have hd2 := digit_ne_sign d hdd
    have hsign : ¬((d :: (t ++ rest.data)).head? = some '-' ∨
        (d :: (t ++ rest.data)).head? = some '+') := by
      simp only [List.head?_cons, Option.some.injEq]
      rintro (h | h)
      · exact hd2.1 h
      · exact hd2.2 h
    rw [if_neg hsign]
    have htake : (d :: (t ++ rest.data)).takeWhile isDigit10 = d :: t := by
      have h0 := takeWhile_append_of_all isDigit10 (d :: t) rest.data
        (by rw [← hd]; exact hdig) hrest
      simpa using h0
    rw [htake]
    rw [List.isEmpty_cons]
    have hneg2 : ¬((d :: (t ++ rest.data)).head? = some '-') := by
      simp only [List.head?_cons, Option.some.injEq]
      exact hd2.1
    rw [if_neg (by simp), if_neg hneg2]
  have hA : asQty (JSVal.str s) = some ((digitsToNat ds.data : Int)) := by
    unfold asQty
    have hjs : jsToString (coalesceEmpty (JSVal.str s)) = s := rfl
    rw [hjs, hparse]
    show (if (0 : Int) < (digitsToNat ds.data : Int)
          then some ((digitsToNat ds.data : Int)) else none) =
        some ((digitsToNat ds.data : Int))
    rw [if_pos (Int.natCast_pos.mpr hpos)]
  refine ⟨hA, ?_⟩
  intro it hqty hb hc
  have hq : asQty it.quantity = some ((digitsToNat ds.data : Int)) := by
    rw [hqty]
    exact hA
  refine ⟨{ brandInputUpper := jsToUpper (text it.brand)
            catalogUpper := jsToUpper (text it.catalog_number)
            normalizedCatalog := normalizeCatalog (text it.catalog_number)
            quantity := (digitsToNat ds.data : Int) }, ?_, rfl⟩
  simp only [lineOfItem, hq]
  rw [if_neg (not_or.mpr ⟨hb, hc⟩)]

theorem asQty_leading_integer_witness :
    (asQty (JSVal.str "7 pcs") = some ((digitsToNat ("7" : String).data : Int)) ∧
     (∀ it : RawItem, it.quantity = JSVal.str "7 pcs" → text it.brand ≠ "" →
        text it.catalog_number ≠ "" →
        ∃ l, lineOfItem it = some l ∧
          l.quantity = (digitsToNat ("7" : String).data : Int))) ∧
    (digitsToNat ("7" : String).data : Int) = 7 :=
  ⟨asQty_leading_integer "7 pcs" "7" " pcs" (by decide) (by decide) (by decide)
     (by decide) (by decide), by decide⟩

theorem draft_lines_always_valid_witness :
    ({ brandInputUpper := "ABC CO", catalogUpper := "XY-100",
       normalizedCatalog := "XY100", quantity := 5 } : DraftLine) ∈
        (transformAiToDraft sampleAi).lines ∧
    (("ABC CO" : String) ≠ "" ∧ ("XY-100" : String) ≠ "" ∧ (0 : Int) < 5) :=
  ⟨by decide,
   draft_lines_always_valid sampleAi
     { brandInputUpper := "ABC CO", catalogUpper := "XY-100",
       normalizedCatalog := "XY100", quantity := 5 } (by decide)⟩

end Ingest






